import Mathlib

/-!
Verification development for the truescad geometric modeling kernel.

Shallow embedding of:
  - the QEF (quadratic error function) solver (src/tessellation/qef.rs),
    embedded over rationals (exact arithmetic; the NaN initialization of
    the solution and error fields is modelled by Option, since NaN fails
    every comparison exactly as Option-none does in the containment test);
  - the sphere primitive (src/primitive/sphere.rs) over the reals;
  - the affine transformer (src/primitive/transformer.rs) over the reals,
    with 4x4 matrices;
  - the renderer (src/src/render.rs): ray marching and buffer drawing;
  - the equality/ordering impls for boxed objects (src/primitive/lib.rs).

The BoundingBox type lives in the truescad_bbox crate, whose source is not
part of this snapshot; its operations are modelled from the specification
(each such definition is marked in its doc comment).
-/

namespace Truescad

/-- 3D vector with components in a field; models na::Vector3 / Point. -/
structure Vec3 (α : Type) where
  x : α
  y : α
  z : α
deriving DecidableEq, Repr

instance [Add α] : Add (Vec3 α) := ⟨fun a b => ⟨a.x + b.x, a.y + b.y, a.z + b.z⟩⟩

instance [Sub α] : Sub (Vec3 α) := ⟨fun a b => ⟨a.x - b.x, a.y - b.y, a.z - b.z⟩⟩

instance [Neg α] : Neg (Vec3 α) := ⟨fun a => ⟨-a.x, -a.y, -a.z⟩⟩

instance [Mul α] : SMul α (Vec3 α) := ⟨fun c v => ⟨c * v.x, c * v.y, c * v.z⟩⟩

instance [Zero α] : Zero (Vec3 α) := ⟨⟨0, 0, 0⟩⟩

/-- Dot product of two 3D vectors. -/
def Vec3.dot [Mul α] [Add α] (a b : Vec3 α) : α :=
  a.x * b.x + a.y * b.y + a.z * b.z

/-- Axis-aligned bounding box, min and max corner points.
Modelled from the spec: the truescad_bbox crate is not in the source
snapshot; the spec describes BoundingBox as min/max points with the
invariant min <= max componentwise. -/
structure BBox (α : Type) where
  min : Vec3 α
  max : Vec3 α
deriving DecidableEq, Repr

/-- Modelled from the spec: BoundingBox containment test (truescad_bbox is
not in the source snapshot): the point is inside iff it is between min and
max on every axis. -/
def BBox.contains [LinearOrder α] (b : BBox α) (p : Vec3 α) : Prop :=
  b.min.x ≤ p.x ∧ p.x ≤ b.max.x ∧
  b.min.y ≤ p.y ∧ p.y ≤ b.max.y ∧
  b.min.z ≤ p.z ∧ p.z ≤ b.max.z

instance [LinearOrder α] (b : BBox α) (p : Vec3 α) : Decidable (b.contains p) :=
  inferInstanceAs (Decidable (_ ∧ _))

/-- Containment of an optional point: a missing point (the model of a NaN
vector, which fails every comparison) is never contained. -/
def BBox.containsOpt [LinearOrder α] (b : BBox α) : Option (Vec3 α) → Prop
  | none => False
  | some p => b.contains p

instance [LinearOrder α] (b : BBox α) :
    (o : Option (Vec3 α)) → Decidable (b.containsOpt o)
  | none => isFalse (fun h => h)
  | some p => inferInstanceAs (Decidable (b.contains p))

/-- Modelled from the spec: BoundingBox union (truescad_bbox is not in the
source snapshot): the smallest box containing both boxes. -/
def BBox.union [LinearOrder α] (a b : BBox α) : BBox α :=
  ⟨⟨Min.min a.min.x b.min.x, Min.min a.min.y b.min.y, Min.min a.min.z b.min.z⟩,
   ⟨Max.max a.max.x b.max.x, Max.max a.max.y b.max.y, Max.max a.max.z b.max.z⟩⟩

/-- Modelled from the spec: BoundingBox signed approximate distance
(truescad_bbox is not in the source snapshot): zero or negative inside the
box, and outside it a true lower bound on the distance to the box (here
the largest per-axis excess, which underestimates Euclidean distance). -/
def BBox.value [LinearOrder α] [Sub α] (b : BBox α) (p : Vec3 α) : α :=
  Max.max (Max.max (Max.max (b.min.x - p.x) (p.x - b.max.x))
                   (Max.max (b.min.y - p.y) (p.y - b.max.y)))
          (Max.max (b.min.z - p.z) (p.z - b.max.z))

/-- Well-formedness of a bounding box: min below max on every axis. -/
def BBox.wf [LE α] (b : BBox α) : Prop :=
  b.min.x ≤ b.max.x ∧ b.min.y ≤ b.max.y ∧ b.min.z ≤ b.max.z

/-- 3x3 matrix, row major; models na::Matrix3. -/
structure Mat3 (α : Type) where
  m00 : α
  m01 : α
  m02 : α
  m10 : α
  m11 : α
  m12 : α
  m20 : α
  m21 : α
  m22 : α
deriving DecidableEq, Repr

/-- Matrix-vector product for 3x3 matrices. -/
def Mat3.mulVec [Mul α] [Add α] (m : Mat3 α) (v : Vec3 α) : Vec3 α :=
  ⟨m.m00 * v.x + m.m01 * v.y + m.m02 * v.z,
   m.m10 * v.x + m.m11 * v.y + m.m12 * v.z,
   m.m20 * v.x + m.m21 * v.y + m.m22 * v.z⟩

/-- Determinant of a 3x3 matrix (cofactor expansion along the first row,
as nalgebra computes it for Matrix3::try_inverse). -/
def Mat3.det [Mul α] [Add α] [Sub α] (m : Mat3 α) : α :=
  m.m00 * (m.m11 * m.m22 - m.m12 * m.m21) -
  m.m01 * (m.m10 * m.m22 - m.m12 * m.m20) +
  m.m02 * (m.m10 * m.m21 - m.m11 * m.m20)

/-- Inverse of a 3x3 matrix via the adjugate, assuming the determinant is
invertible; models the arithmetic of nalgebra Matrix3 inversion. -/
def Mat3.adjInverse [Field α] (m : Mat3 α) : Mat3 α :=
  let d := m.det
  ⟨(m.m11 * m.m22 - m.m12 * m.m21) / d,
   (m.m02 * m.m21 - m.m01 * m.m22) / d,
   (m.m01 * m.m12 - m.m02 * m.m11) / d,
   (m.m12 * m.m20 - m.m10 * m.m22) / d,
   (m.m00 * m.m22 - m.m02 * m.m20) / d,
   (m.m02 * m.m10 - m.m00 * m.m12) / d,
   (m.m10 * m.m21 - m.m11 * m.m20) / d,
   (m.m01 * m.m20 - m.m00 * m.m21) / d,
   (m.m00 * m.m11 - m.m01 * m.m10) / d⟩

/-- Fallible inversion: fails exactly when the determinant vanishes;
models nalgebra Matrix3::try_inverse. -/
def Mat3.tryInverse [Field α] [DecidableEq α] (m : Mat3 α) : Option (Mat3 α) :=
  if m.det = 0 then none else some m.adjInverse

/-- An oriented sample plane: point plus unit normal (src/tessellation). -/
structure Plane where
  p : Vec3 ℚ
  n : Vec3 ℚ
deriving DecidableEq, Repr

/-- The QEF solver state, from src/tessellation/qef.rs. The solution and
error fields are initialized to NaN in the source; NaN is modelled as
none (it fails every comparison, exactly as the containment test on none
does here). -/
structure Qef where
  solution : Option (Vec3 ℚ)
  sum : Vec3 ℚ
  num : ℕ
  ata0 : ℚ
  ata1 : ℚ
  ata2 : ℚ
  ata3 : ℚ
  ata4 : ℚ
  ata5 : ℚ
  atb : Vec3 ℚ
  btb : ℚ
  error : Option ℚ
  bbox : BBox ℚ
deriving DecidableEq, Repr

/-- One step of the accumulation loop in Qef::new: add the outer product
of the plane normal into the upper triangle, the normal times the signed
offset into atb, the squared offset into btb, and the raw point into sum. -/
def Qef.accumPlane (q : Qef) (p : Plane) : Qef :=
  let pn := p.p.x * p.n.x + p.p.y * p.n.y + p.p.z * p.n.z
  { q with
    ata0 := q.ata0 + p.n.x * p.n.x
    ata1 := q.ata1 + p.n.x * p.n.y
    ata2 := q.ata2 + p.n.x * p.n.z
    ata3 := q.ata3 + p.n.y * p.n.y
    ata4 := q.ata4 + p.n.y * p.n.z
    ata5 := q.ata5 + p.n.z * p.n.z
    atb := ⟨q.atb.x + p.n.x * pn, q.atb.y + p.n.y * pn, q.atb.z + p.n.z * pn⟩
    btb := q.btb + pn * pn
    sum := ⟨q.sum.x + p.p.x, q.sum.y + p.p.y, q.sum.z + p.p.z⟩ }

/-- Qef::new: start from the NaN/zero initial state and accumulate every
plane in order. -/
def Qef.new (planes : List Plane) (bbox : BBox ℚ) : Qef :=
  planes.foldl Qef.accumPlane
    { solution := none
      sum := ⟨0, 0, 0⟩
      num := planes.length
      ata0 := 0, ata1 := 0, ata2 := 0, ata3 := 0, ata4 := 0, ata5 := 0
      atb := ⟨0, 0, 0⟩
      btb := 0
      error := none
      bbox := bbox }

/-- The symmetric 3x3 normal matrix rebuilt from the accumulated upper
triangle, as at the start of Qef::solve. -/
def Qef.ma (q : Qef) : Mat3 ℚ :=
  ⟨q.ata0, q.ata1, q.ata2, q.ata1, q.ata3, q.ata4, q.ata2, q.ata4, q.ata5⟩

/-- The sample centroid sum / num computed in Qef::solve (meaningful for
num >= 1; the source divides floats). -/
def Qef.mean (q : Qef) : Vec3 ℚ :=
  ((q.num : ℚ))⁻¹ • q.sum

/-- The quadratic error at a point: btb - 2 <point, atb> + <point, ma point>
(Qef::error). -/
def Qef.errorAt (q : Qef) (point : Vec3 ℚ) (ma : Mat3 ℚ) : ℚ :=
  q.btb - 2 * point.dot q.atb + point.dot (ma.mulVec point)

/-- Modelled from the spec: the EPSILON constant of the truescad_types
crate (not in the source snapshot), used as the tiny positive offset along
each axis when probing the error gradient in the bisection fallback. -/
def qefEpsilon : ℚ := 1 / 10 ^ 10

/-- The cell midpoint (max + min) * 0.5 used by the bisection search. -/
def midPoint (b : BBox ℚ) : Vec3 ℚ :=
  ⟨(b.max.x + b.min.x) * (1 / 2), (b.max.y + b.min.y) * (1 / 2),
   (b.max.z + b.min.z) * (1 / 2)⟩

/-- One refinement step of the bisection search in Qef::search_solution:
for each of the three axes, probe the error at the midpoint offset by
EPSILON along that axis and keep the half of the cell on the lower-error
side (the midpoint is computed once, so the three axis updates are
independent). -/
def Qef.shrinkStep (q : Qef) (ma : Mat3 ℚ) (b : BBox ℚ) : BBox ℚ :=
  let mid := midPoint b
  let midError := q.errorAt mid ma
  let bX :=
    if q.errorAt ⟨mid.x + qefEpsilon, mid.y, mid.z⟩ ma < midError then
      { b with min := { b.min with x := mid.x } }
    else
      { b with max := { b.max with x := mid.x } }
  let bY :=
    if q.errorAt ⟨mid.x, mid.y + qefEpsilon, mid.z⟩ ma < midError then
      { bX with min := { bX.min with y := mid.y } }
    else
      { bX with max := { bX.max with y := mid.y } }
  if q.errorAt ⟨mid.x, mid.y, mid.z + qefEpsilon⟩ ma < midError then
    { bY with min := { bY.min with z := mid.z } }
  else
    { bY with max := { bY.max with z := mid.z } }

/-- Qef::search_solution with explicit recursion fuel: stop with the cell
midpoint as soon as the x-extent of the cell is within the accuracy
threshold, otherwise shrink the cell and recurse.  The source recurses
without fuel; the depth bound (at most 7 recursive steps, proved below)
shows the fuel is never exhausted when called as Qef::solve calls it. -/
def Qef.searchSolutionF (q : Qef) (ma : Mat3 ℚ) (accuracy : ℚ) :
    ℕ → BBox ℚ → Option (Vec3 ℚ)
  | fuel, b =>
    if b.max.x - b.min.x ≤ accuracy then some (midPoint b)
    else
      match fuel with
      | 0 => none
      | fuel + 1 => q.searchSolutionF ma accuracy fuel (q.shrinkStep ma b)

/-- The unconstrained least-squares candidate computed at the top of
Qef::solve: if the normal matrix inverts, mean + inverse * (atb - ma*mean);
otherwise the solution field is left at its previous value (NaN, i.e.
none, for a freshly built Qef). -/
def Qef.lsSolution (q : Qef) : Option (Vec3 ℚ) :=
  match q.ma.tryInverse with
  | some inv => some (inv.mulVec (q.atb - q.ma.mulVec q.mean) + q.mean)
  | none => q.solution

/-- Qef::solve: take the least-squares candidate; if it is not contained
in the cell (a NaN candidate never is), run the bounded bisection search
with accuracy one hundredth of the cell x-extent; finally record the
quadratic error at the accepted solution. -/
def Qef.solve (q : Qef) : Qef :=
  let ma := q.ma
  let sol0 := q.lsSolution
  let sol :=
    if q.bbox.containsOpt sol0 then sol0
    else q.searchSolutionF ma ((q.bbox.max.x - q.bbox.min.x) / 100) 7 q.bbox
  { q with solution := sol, error := sol.map (fun s => q.errorAt s ma) }

/-- Qef::merge: elementwise-add all accumulators and the sample count and
replace the cell with the union of both cells (the stale solution and
error fields of the receiver are kept untouched). -/
def Qef.merge (q o : Qef) : Qef :=
  { q with
    ata0 := q.ata0 + o.ata0
    ata1 := q.ata1 + o.ata1
    ata2 := q.ata2 + o.ata2
    ata3 := q.ata3 + o.ata3
    ata4 := q.ata4 + o.ata4
    ata5 := q.ata5 + o.ata5
    atb := q.atb + o.atb
    btb := q.btb + o.btb
    sum := q.sum + o.sum
    num := q.num + o.num
    bbox := q.bbox.union o.bbox }

/-- The signed dot product point . normal of a plane (the pn accumulator
of Qef::new). -/
def planePn (p : Plane) : ℚ :=
  p.p.x * p.n.x + p.p.y * p.n.y + p.p.z * p.n.z

/-- Nesting of bounding boxes: inner lies within outer on every axis. -/
def BBox.within [LE α] (inner outer : BBox α) : Prop :=
  outer.min.x ≤ inner.min.x ∧ inner.max.x ≤ outer.max.x ∧
  outer.min.y ≤ inner.min.y ∧ inner.max.y ≤ outer.max.y ∧
  outer.min.z ≤ inner.min.z ∧ inner.max.z ≤ outer.max.z

/-! Real-valued part of the embedding: primitives, affine transformer and
renderer (floats are idealized as real numbers; square roots appear in
vector norms, so these definitions live over ℝ). -/

/-- Euclidean norm of a 3D real vector (nalgebra Vector3::norm). -/
noncomputable def vnorm (v : Vec3 ℝ) : ℝ :=
  Real.sqrt (v.x ^ 2 + v.y ^ 2 + v.z ^ 2)

/-- nalgebra Vector3::normalize: divide the vector by its norm. -/
noncomputable def vnormalize (v : Vec3 ℝ) : Vec3 ℝ :=
  (vnorm v)⁻¹ • v

/-- The sphere primitive (src/primitive/sphere.rs): radius and the cached
bounding box. -/
structure Sphere where
  radius : ℝ
  bbox : BBox ℝ

/-- Sphere::new: radius r, bbox from (-r,-r,-r) to (r,r,r). -/
def Sphere.new (r : ℝ) : Sphere :=
  ⟨r, ⟨⟨-r, -r, -r⟩, ⟨r, r, r⟩⟩⟩

/-- Sphere::approx_value: if the cheap bounding-box estimate is within the
slack, evaluate the exact distance norm(p) - radius, else return the
estimate. -/
noncomputable def Sphere.approxValue (s : Sphere) (p : Vec3 ℝ) (slack : ℝ) : ℝ :=
  let approx := s.bbox.value p
  if approx ≤ slack then vnorm p - s.radius else approx

/-- Sphere::normal: the normalized position vector. -/
noncomputable def Sphere.normal (_s : Sphere) (p : Vec3 ℝ) : Vec3 ℝ :=
  vnormalize p

/-- Homogeneous 4x4 real matrix (the Transform type of truescad_types,
i.e. na::Matrix4 of Float). -/
abbrev Mat4 := Matrix (Fin 4) (Fin 4) ℝ

/-- nalgebra Matrix4::transform_point: apply the homogeneous matrix to the
point and divide by the resulting w coordinate when it is nonzero. -/
noncomputable def transformPoint (m : Mat4) (p : Vec3 ℝ) : Vec3 ℝ :=
  let tx := m 0 0 * p.x + m 0 1 * p.y + m 0 2 * p.z + m 0 3
  let ty := m 1 0 * p.x + m 1 1 * p.y + m 1 2 * p.z + m 1 3
  let tz := m 2 0 * p.x + m 2 1 * p.y + m 2 2 * p.z + m 2 3
  let n := m 3 0 * p.x + m 3 1 * p.y + m 3 2 * p.z + m 3 3
  if n = 0 then ⟨tx, ty, tz⟩ else ⟨tx / n, ty / n, tz / n⟩

/-- nalgebra Matrix4::transform_vector: apply only the linear 3x3 part. -/
def transformVector (m : Mat4) (v : Vec3 ℝ) : Vec3 ℝ :=
  ⟨m 0 0 * v.x + m 0 1 * v.y + m 0 2 * v.z,
   m 1 0 * v.x + m 1 1 * v.y + m 1 2 * v.z,
   m 2 0 * v.x + m 2 1 * v.y + m 2 2 * v.z⟩

/-- Diagonal-affine homogeneous matrix: per-axis scales w, translation t.
Translations and nonuniform scalings (and their products) all have this
shape. -/
def affD (w t : Vec3 ℝ) : Mat4 :=
  !![w.x, 0, 0, t.x; 0, w.y, 0, t.y; 0, 0, w.z, t.z; 0, 0, 0, 1]

/-- Homogeneous translation matrix (nalgebra append_translation builds
translation * self). -/
def translationM (t : Vec3 ℝ) : Mat4 :=
  affD ⟨1, 1, 1⟩ t

/-- Homogeneous nonuniform scaling matrix (nalgebra
append_nonuniform_scaling builds scaling * self). -/
def scalingM (w : Vec3 ℝ) : Mat4 :=
  affD w ⟨0, 0, 0⟩

/-- Homogeneous rotation about the x axis (roll). -/
noncomputable def rotXh (a : ℝ) : Mat4 :=
  !![1, 0, 0, 0;
     0, Real.cos a, -Real.sin a, 0;
     0, Real.sin a, Real.cos a, 0;
     0, 0, 0, 1]

/-- Homogeneous rotation about the y axis (pitch). -/
noncomputable def rotYh (a : ℝ) : Mat4 :=
  !![Real.cos a, 0, Real.sin a, 0;
     0, 1, 0, 0;
     -Real.sin a, 0, Real.cos a, 0;
     0, 0, 0, 1]

/-- Homogeneous rotation about the z axis (yaw). -/
noncomputable def rotZh (a : ℝ) : Mat4 :=
  !![Real.cos a, -Real.sin a, 0, 0;
     Real.sin a, Real.cos a, 0, 0;
     0, 0, 1, 0;
     0, 0, 0, 1]

/-- na::Rotation::from_euler_angles(r.x, r.y, r.z).to_homogeneous(): roll
about x, then pitch about y, then yaw about z. -/
noncomputable def eulerM (r : Vec3 ℝ) : Mat4 :=
  rotZh r.z * rotYh r.y * rotXh r.x

/-- Modelled from the spec: BoundingBox affine transform (truescad_bbox is
not in the source snapshot): apply the map to all 8 corners and take the
new axis-aligned extent. -/
noncomputable def BBox.transform (m : Mat4) (b : BBox ℝ) : BBox ℝ :=
  let c0 := transformPoint m ⟨b.min.x, b.min.y, b.min.z⟩
  let c1 := transformPoint m ⟨b.min.x, b.min.y, b.max.z⟩
  let c2 := transformPoint m ⟨b.min.x, b.max.y, b.min.z⟩
  let c3 := transformPoint m ⟨b.min.x, b.max.y, b.max.z⟩
  let c4 := transformPoint m ⟨b.max.x, b.min.y, b.min.z⟩
  let c5 := transformPoint m ⟨b.max.x, b.min.y, b.max.z⟩
  let c6 := transformPoint m ⟨b.max.x, b.max.y, b.min.z⟩
  let c7 := transformPoint m ⟨b.max.x, b.max.y, b.max.z⟩
  ⟨⟨Min.min (Min.min (Min.min c0.x c1.x) (Min.min c2.x c3.x))
            (Min.min (Min.min c4.x c5.x) (Min.min c6.x c7.x)),
    Min.min (Min.min (Min.min c0.y c1.y) (Min.min c2.y c3.y))
            (Min.min (Min.min c4.y c5.y) (Min.min c6.y c7.y)),
    Min.min (Min.min (Min.min c0.z c1.z) (Min.min c2.z c3.z))
            (Min.min (Min.min c4.z c5.z) (Min.min c6.z c7.z))⟩,
   ⟨Max.max (Max.max (Max.max c0.x c1.x) (Max.max c2.x c3.x))
            (Max.max (Max.max c4.x c5.x) (Max.max c6.x c7.x)),
    Max.max (Max.max (Max.max c0.y c1.y) (Max.max c2.y c3.y))
            (Max.max (Max.max c4.y c5.y) (Max.max c6.y c7.y)),
    Max.max (Max.max (Max.max c0.z c1.z) (Max.max c2.z c3.z))
            (Max.max (Max.max c4.z c5.z) (Max.max c6.z c7.z))⟩⟩

/-- The capability interface of the Object trait (src/primitive/lib.rs):
approx_value, normal and the cached bounding box.  Any Rust type
implementing the trait is modelled as a value of this structure. -/
structure Obj where
  approxValue : Vec3 ℝ → ℝ → ℝ
  normal : Vec3 ℝ → Vec3 ℝ
  bbox : BBox ℝ

/-- The AffineTransformer variant (src/primitive/transformer.rs): child
object, homogeneous transform, cached minimum scale factor and cached
bounding box. -/
structure AffineTransformer where
  object : Obj
  transform : Mat4
  scaleMin : ℝ
  bbox : BBox ℝ

/-- AffineTransformer::new_with_scaler: inverting a singular matrix fails
(the source panics; modelled as none); on success the child bounding box
transformed by the inverse is cached. -/
noncomputable def AffineTransformer.newWithScaler
    (o : Obj) (t : Mat4) (scaleMin : ℝ) : Option AffineTransformer :=
  if t.det = 0 then none
  else some ⟨o, t, scaleMin, BBox.transform t⁻¹ o.bbox⟩

/-- The Object impl of AffineTransformer: bbox-gated evaluation of the
child at the transformed point with rescaled slack and result, and the
normal pushed through the linear part and renormalized. -/
noncomputable def AffineTransformer.toObj (a : AffineTransformer) : Obj where
  approxValue := fun p slack =>
    let approx := a.bbox.value p
    if approx ≤ slack then
      a.object.approxValue (transformPoint a.transform p) (slack / a.scaleMin) *
        a.scaleMin
    else approx
  normal := fun p =>
    vnormalize (transformVector a.transform
      (a.object.normal (transformPoint a.transform p)))
  bbox := a.bbox

/-- AffineTransformer::translate: fold translation(-v) into the matrix,
keep the same (cloned) child and scale factor. -/
noncomputable def AffineTransformer.translate
    (a : AffineTransformer) (v : Vec3 ℝ) : Option AffineTransformer :=
  AffineTransformer.newWithScaler a.object (translationM (-v) * a.transform)
    a.scaleMin

/-- AffineTransformer::rotate: fold the euler rotation into the matrix on
the right, keep the same child and scale factor. -/
noncomputable def AffineTransformer.rotate
    (a : AffineTransformer) (r : Vec3 ℝ) : Option AffineTransformer :=
  AffineTransformer.newWithScaler a.object (a.transform * eulerM r) a.scaleMin

/-- AffineTransformer::scale: fold scaling(1/s) into the matrix and shrink
the cached minimum scale factor by min(s.x, s.y, s.z). -/
noncomputable def AffineTransformer.scale
    (a : AffineTransformer) (s : Vec3 ℝ) : Option AffineTransformer :=
  AffineTransformer.newWithScaler a.object
    (scalingM ⟨1 / s.x, 1 / s.y, 1 / s.z⟩ * a.transform)
    (a.scaleMin * Min.min s.x (Min.min s.y s.z))

/-- The default Object::translate of the trait: wrap the object in an
identity AffineTransformer and fold the translation into it (this is what
stacking a second wrapper around an existing transformer produces). -/
noncomputable def AffineTransformer.newTranslate
    (o : Obj) (v : Vec3 ℝ) : Option AffineTransformer :=
  (AffineTransformer.newWithScaler o 1 1).bind fun a => a.translate v

/-- PartialEq for boxed Objects (src/primitive/lib.rs): always false. -/
def boxObjectEq (_a _b : Obj) : Bool :=
  false

/-- PartialOrd for boxed Objects (src/primitive/lib.rs): always None. -/
def boxObjectPartialCmp (_a _b : Obj) : Option Ordering :=
  none

/-- The marching stop threshold factor EPSILON of src/src/render.rs. -/
noncomputable def renderEpsilonFactor : ℝ := 0.003

/-- The APPROX_SLACK factor of src/src/render.rs. -/
noncomputable def renderApproxSlackFactor : ℝ := 0.1

/-- FOCAL_FACTOR = 36 mm film / 50 of src/src/render.rs. -/
noncomputable def focalFactor : ℝ := 36 / 50

/-- A ray: origin and direction (src/src/render.rs). -/
structure Ray where
  origin : Vec3 ℝ
  dir : Vec3 ℝ

/-- The renderer state (src/src/render.rs). -/
structure Renderer where
  lightDir : Vec3 ℝ
  trans : Mat4
  object : Option Obj
  epsilon : ℝ
  maxval : ℝ
  approxSlack : ℝ

/-- Renderer::new. -/
noncomputable def Renderer.new : Renderer :=
  { lightDir := ⟨-2 / 3, 2 / 3, -1 / 3⟩
    trans := 1
    object := none
    epsilon := renderEpsilonFactor
    maxval := 0
    approxSlack := renderApproxSlackFactor }

/-- Renderer::object_width: twice the largest absolute bounding-box
coordinate of the object, 0 with no object. -/
noncomputable def Renderer.objectWidth (r : Renderer) : ℝ :=
  match r.object with
  | some o =>
      Max.max (Max.max |o.bbox.max.x| |o.bbox.min.x|)
        (Max.max (Max.max |o.bbox.max.y| |o.bbox.min.y|)
          (Max.max |o.bbox.max.z| |o.bbox.min.z|)) * 2
  | none => 0

/-- Renderer::set_object: store the object and recompute epsilon, maxval
and approx_slack from the new object width. -/
noncomputable def Renderer.setObject (r : Renderer) (o : Option Obj) : Renderer :=
  let r2 := { r with object := o }
  { r2 with
    epsilon := r2.objectWidth * renderEpsilonFactor
    maxval := r2.objectWidth
    approxSlack := r2.objectWidth * renderApproxSlackFactor }

/-- The marching loop of Renderer::cast_ray, with explicit fuel (the
source loop is unbounded; fuel exhaustion models non-termination).  Each
iteration normalizes the direction, steps the origin forward by the last
evaluated distance, re-evaluates, and exits with shade 0 on a miss
(value above maxval) or, on a hit (value below epsilon), with the shade
dot(normal, light) clamped at 0 for back-facing surfaces. -/
noncomputable def castRayLoop (rend : Renderer) (obj : Obj) (light : Vec3 ℝ) :
    ℕ → Vec3 ℝ → Vec3 ℝ → ℝ → ℕ → Option (ℕ × ℝ)
  | fuel, origin, dir, value, iter =>
    let d := vnormalize dir
    let o := origin + value • d
    let v := obj.approxValue o rend.approxSlack
    let it := iter + 1
    if rend.maxval < v then some (it, 0)
    else if v < rend.epsilon then
      let dt := (obj.normal o).dot light
      if dt < 0 then some (it, 0) else some (it, dt)
    else
      match fuel with
      | 0 => none
      | fuel + 1 => castRayLoop rend obj light fuel o d v it

/-- Renderer::cast_ray: run the marching loop from the ray with the given
origin value and iteration count 0. -/
noncomputable def Renderer.castRay (rend : Renderer) (obj : Obj) (fuel : ℕ)
    (r : Ray) (light : Vec3 ℝ) (originValue : ℝ) : Option (ℕ × ℝ) :=
  castRayLoop rend obj light fuel r.origin r.dir originValue 0

/-- The saturating f64-to-u8 cast of Rust (used for the shade byte). -/
noncomputable def f64AsU8 (x : ℝ) : ℕ :=
  (min 255 ⌊x⌋).toNat

/-- One row of Renderer::draw_on_buf: for every pixel x write the
iteration count byte, twice the shade byte, and keep the fourth byte of
the pixel untouched; none if the marching fuel runs out on some pixel. -/
noncomputable def renderRow (rend : Renderer) (obj : Obj) (fuel : ℕ)
    (rayOrigin dirRow dirRl lightDir : Vec3 ℝ) (originValue scale : ℝ)
    (w2 : ℤ) (width : ℤ) (row : List ℕ) : Option (List ℕ) :=
  ((List.range width.toNat).mapM fun (xn : ℕ) =>
    (castRayLoop rend obj lightDir fuel rayOrigin
        (dirRow + ((((xn : ℤ) - w2 : ℤ) : ℝ) * scale) • dirRl) originValue 0).map
      fun iv =>
        [iv.1 % 256, f64AsU8 (255 * iv.2 * iv.2), f64AsU8 (255 * iv.2 * iv.2),
         row.getD (4 * xn + 3) 0]).map List.flatten

/-- Renderer::draw_on_buf: with no object the buffer is left untouched;
with an object, derive the camera basis from the stored transform and
render every row of width*4 bytes independently. -/
noncomputable def Renderer.drawOnBuf (rend : Renderer) (fuel : ℕ)
    (buf : List ℕ) (width height : ℤ) : Option (List ℕ) :=
  match rend.object with
  | none => some buf
  | some obj =>
    let objectWidth := rend.objectWidth
    let viewerDist := focalFactor * objectWidth * 3
    let scale := 1 / ((Min.min width height : ℤ) : ℝ)
    let w2 := width / 2
    let h2 := height / 2
    let dirFront := transformVector rend.trans ⟨0, 0, 1⟩
    let dirRl := transformVector rend.trans ⟨focalFactor, 0, 0⟩
    let dirTb := transformVector rend.trans ⟨0, -focalFactor, 0⟩
    let lightDir := transformVector rend.trans rend.lightDir
    let rayOrigin := transformPoint rend.trans ⟨0, 0, -viewerDist⟩
    let originValue := obj.approxValue rayOrigin rend.approxSlack
    ((buf.toChunks (4 * width).toNat).enum.mapM fun yrow =>
      renderRow rend obj fuel rayOrigin
        (dirFront + ((((yrow.1 : ℤ) - h2 : ℤ) : ℝ) * scale) • dirTb) dirRl
        lightDir originValue scale w2 width yrow.2).map List.flatten

@[simp] lemma Vec3.add_x [Add α] (a b : Vec3 α) : (a + b).x = a.x + b.x := rfl

@[simp] lemma Vec3.add_y [Add α] (a b : Vec3 α) : (a + b).y = a.y + b.y := rfl

@[simp] lemma Vec3.add_z [Add α] (a b : Vec3 α) : (a + b).z = a.z + b.z := rfl

@[simp] lemma Vec3.sub_x [Sub α] (a b : Vec3 α) : (a - b).x = a.x - b.x := rfl

@[simp] lemma Vec3.sub_y [Sub α] (a b : Vec3 α) : (a - b).y = a.y - b.y := rfl

@[simp] lemma Vec3.sub_z [Sub α] (a b : Vec3 α) : (a - b).z = a.z - b.z := rfl

@[simp] lemma Vec3.neg_x [Neg α] (a : Vec3 α) : (-a).x = -a.x := rfl

@[simp] lemma Vec3.neg_y [Neg α] (a : Vec3 α) : (-a).y = -a.y := rfl

@[simp] lemma Vec3.neg_z [Neg α] (a : Vec3 α) : (-a).z = -a.z := rfl

@[simp] lemma Vec3.smul_x [Mul α] (c : α) (a : Vec3 α) : (c • a).x = c * a.x := rfl

@[simp] lemma Vec3.smul_y [Mul α] (c : α) (a : Vec3 α) : (c • a).y = c * a.y := rfl

@[simp] lemma Vec3.smul_z [Mul α] (c : α) (a : Vec3 α) : (c • a).z = c * a.z := rfl

@[simp] lemma Vec3.zero_x [Zero α] : (0 : Vec3 α).x = 0 := rfl

@[simp] lemma Vec3.zero_y [Zero α] : (0 : Vec3 α).y = 0 := rfl

@[simp] lemma Vec3.zero_z [Zero α] : (0 : Vec3 α).z = 0 := rfl

@[simp] lemma Vec3.mk_add_mk [Add α] (a b c d e f : α) :
    (⟨a, b, c⟩ + ⟨d, e, f⟩ : Vec3 α) = ⟨a + d, b + e, c + f⟩ := rfl

@[simp] lemma Vec3.mk_sub_mk [Sub α] (a b c d e f : α) :
    (⟨a, b, c⟩ - ⟨d, e, f⟩ : Vec3 α) = ⟨a - d, b - e, c - f⟩ := rfl

@[simp] lemma Vec3.smul_mk [Mul α] (r a b c : α) :
    (r • (⟨a, b, c⟩ : Vec3 α)) = ⟨r * a, r * b, r * c⟩ := rfl

@[simp] lemma Vec3.neg_mk [Neg α] (a b c : α) :
    (-(⟨a, b, c⟩ : Vec3 α)) = ⟨-a, -b, -c⟩ := rfl

lemma BBox.within_refl [Preorder α] (b : BBox α) : b.within b :=
  ⟨le_refl _, le_refl _, le_refl _, le_refl _, le_refl _, le_refl _⟩

lemma BBox.within_trans [Preorder α] {a b c : BBox α}
    (h1 : a.within b) (h2 : b.within c) : a.within c :=
  ⟨le_trans h2.1 h1.1, le_trans h1.2.1 h2.2.1,
   le_trans h2.2.2.1 h1.2.2.1, le_trans h1.2.2.2.1 h2.2.2.2.1,
   le_trans h2.2.2.2.2.1 h1.2.2.2.2.1, le_trans h1.2.2.2.2.2 h2.2.2.2.2.2⟩

lemma BBox.contains_of_within [LinearOrder α] {inner outer : BBox α} {p : Vec3 α}
    (hw : inner.within outer) (hc : inner.contains p) :
    outer.contains p := by
  obtain ⟨h1, h2, h3, h4, h5, h6⟩ := hc
  obtain ⟨w1, w2, w3, w4, w5, w6⟩ := hw
  exact ⟨le_trans w1 h1, le_trans h2 w2, le_trans w3 h3,
    le_trans h4 w4, le_trans w5 h5, le_trans h6 w6⟩

lemma midPoint_contains {b : BBox ℚ} (h : b.wf) :
    b.contains (midPoint b) := by
  obtain ⟨h1, h2, h3⟩ := h
  simp only [BBox.contains, midPoint]
  refine ⟨?_, ?_, ?_, ?_, ?_, ?_⟩ <;> linarith

lemma shrinkStep_xsize (q : Qef) (ma : Mat3 ℚ) (b : BBox ℚ) :
    (q.shrinkStep ma b).max.x - (q.shrinkStep ma b).min.x =
      (b.max.x - b.min.x) / 2 := by
  simp only [Qef.shrinkStep, midPoint]
  split_ifs <;> simp <;> ring

lemma shrinkStep_ysize (q : Qef) (ma : Mat3 ℚ) (b : BBox ℚ) :
    (q.shrinkStep ma b).max.y - (q.shrinkStep ma b).min.y =
      (b.max.y - b.min.y) / 2 := by
  simp only [Qef.shrinkStep, midPoint]
  split_ifs <;> simp <;> ring

lemma shrinkStep_zsize (q : Qef) (ma : Mat3 ℚ) (b : BBox ℚ) :
    (q.shrinkStep ma b).max.z - (q.shrinkStep ma b).min.z =
      (b.max.z - b.min.z) / 2 := by
  simp only [Qef.shrinkStep, midPoint]
  split_ifs <;> simp <;> ring

lemma shrinkStep_wf_within (q : Qef) (ma : Mat3 ℚ) {b : BBox ℚ} (h : b.wf) :
    (q.shrinkStep ma b).wf ∧ (q.shrinkStep ma b).within b := by
  obtain ⟨h1, h2, h3⟩ := h
  simp only [Qef.shrinkStep, midPoint, BBox.wf, BBox.within]
  split_ifs <;> simp <;> constructor <;>
    refine ⟨by linarith, by linarith, by linarith⟩

lemma iterate_shrink_wf_within (q : Qef) (ma : Mat3 ℚ) {b : BBox ℚ}
    (h : b.wf) (k : ℕ) :
    ((q.shrinkStep ma)^[k] b).wf ∧ ((q.shrinkStep ma)^[k] b).within b := by
  induction k with
  | zero => exact ⟨h, BBox.within_refl b⟩
  | succ n ih =>
    rw [Function.iterate_succ_apply']
    obtain ⟨hw, hin⟩ := ih
    obtain ⟨hw2, hin2⟩ := shrinkStep_wf_within q ma hw
    exact ⟨hw2, BBox.within_trans hin2 hin⟩

lemma iterate_shrink_xsize (q : Qef) (ma : Mat3 ℚ) (b : BBox ℚ) (k : ℕ) :
    ((q.shrinkStep ma)^[k] b).max.x - ((q.shrinkStep ma)^[k] b).min.x =
      (b.max.x - b.min.x) / 2 ^ k := by
  induction k with
  | zero => simp
  | succ n ih =>
    rw [Function.iterate_succ_apply', shrinkStep_xsize, ih]
    rw [pow_succ]
    ring

lemma searchSolutionF_success (q : Qef) (ma : Mat3 ℚ) (acc : ℚ) :
    ∀ (fuel : ℕ) (b : BBox ℚ),
      (∃ j ≤ fuel,
        ((q.shrinkStep ma)^[j] b).max.x - ((q.shrinkStep ma)^[j] b).min.x ≤ acc) →
      ∃ k ≤ fuel,
        q.searchSolutionF ma acc fuel b =
          some (midPoint ((q.shrinkStep ma)^[k] b)) ∧
        ((q.shrinkStep ma)^[k] b).max.x - ((q.shrinkStep ma)^[k] b).min.x ≤ acc := by
  intro fuel
  induction fuel with
  | zero =>
    intro b hj
    obtain ⟨j, hj0, hjs⟩ := hj
    interval_cases j
    refine ⟨0, le_refl _, ?_, by simpa using hjs⟩
    simp only [Qef.searchSolutionF]
    rw [if_pos (by simpa using hjs)]
    simp
  | succ n ih =>
    intro b hj
    by_cases hstop : b.max.x - b.min.x ≤ acc
    · refine ⟨0, Nat.zero_le _, ?_, by simpa using hstop⟩
      simp only [Qef.searchSolutionF]
      rw [if_pos hstop]
      simp
    · obtain ⟨j, hjn, hjs⟩ := hj
      have hj1 : 1 ≤ j := by
        rcases Nat.eq_zero_or_pos j with h0 | h1
        · subst h0; simp only [Function.iterate_zero, id] at hjs
          exact absurd hjs hstop
        · exact h1
      have hrec : ∃ j2 ≤ n,
          ((q.shrinkStep ma)^[j2] (q.shrinkStep ma b)).max.x -
            ((q.shrinkStep ma)^[j2] (q.shrinkStep ma b)).min.x ≤ acc := by
        refine ⟨j - 1, by omega, ?_⟩
        have hiter : (q.shrinkStep ma)^[j - 1] (q.shrinkStep ma b) =
            (q.shrinkStep ma)^[j] b := by
          rw [← Function.iterate_succ_apply]
          congr 1
          omega
        rw [hiter]
        exact hjs
      obtain ⟨k, hkn, hks, hksz⟩ := ih (q.shrinkStep ma b) hrec
      refine ⟨k + 1, by omega, ?_, ?_⟩
      · show q.searchSolutionF ma acc (n + 1) b = _
        simp only [Qef.searchSolutionF]
        rw [if_neg hstop]
        rw [hks, Function.iterate_succ_apply]
      · rw [Function.iterate_succ_apply]
        exact hksz

/-- The bisection fallback as invoked by Qef::solve always succeeds within
7 recursive steps: accuracy is one hundredth of the starting x-extent and
each step halves the extent, so 2^7 = 128 >= 100 halvings suffice. -/
lemma searchSolutionF_solve_success (q : Qef) (ma : Mat3 ℚ) (b : BBox ℚ) :
    ∃ k ≤ 7,
      q.searchSolutionF ma ((b.max.x - b.min.x) / 100) 7 b =
        some (midPoint ((q.shrinkStep ma)^[k] b)) ∧
      ((q.shrinkStep ma)^[k] b).max.x - ((q.shrinkStep ma)^[k] b).min.x ≤
        (b.max.x - b.min.x) / 100 := by
  apply searchSolutionF_success
  rcases le_or_lt (b.max.x - b.min.x) 0 with hneg | hpos
  · exact ⟨0, by omega, by simpa using by linarith⟩
  · refine ⟨7, le_refl _, ?_⟩
    rw [iterate_shrink_xsize]
    rw [div_le_div_iff₀ (by norm_num) (by norm_num)]
    nlinarith

/-- C1: For every finite non-empty set of planes and bounding cell,
Qef::solve first forms the symmetric 3x3 normal matrix from the
accumulated upper triangle; if that matrix is invertible it sets the
solution candidate to mean + inverse * (atb - matrix*mean) where mean is
the sample centroid sum / num (and otherwise the candidate is the NaN
left in the solution field); and it invokes the deterministic bounded
bisection search exactly when that candidate is not contained in the
cell. -/
theorem C1_solve_characterization (q : Qef) (hnum : 1 ≤ q.num) :
    (q.ma.m01 = q.ma.m10 ∧ q.ma.m02 = q.ma.m20 ∧ q.ma.m12 = q.ma.m21) ∧
    (∀ inv, q.ma.tryInverse = some inv →
      q.lsSolution = some (inv.mulVec (q.atb - q.ma.mulVec q.mean) + q.mean)) ∧
    (q.ma.tryInverse = none → q.lsSolution = q.solution) ∧
    (q.bbox.containsOpt q.lsSolution → (q.solve).solution = q.lsSolution) ∧
    (¬ q.bbox.containsOpt q.lsSolution →
      (q.solve).solution =
        q.searchSolutionF q.ma ((q.bbox.max.x - q.bbox.min.x) / 100) 7 q.bbox) := by
  refine ⟨⟨rfl, rfl, rfl⟩, ?_, ?_, ?_, ?_⟩
  · intro inv hinv
    simp only [Qef.lsSolution, hinv]
  · intro hni
    simp only [Qef.lsSolution, hni]
  · intro hc
    simp only [Qef.solve, if_pos hc]
  · intro hc
    simp only [Qef.solve, if_neg hc]

/-- Witness for C1: the corner configuration from the repository's own
test (planes through (1,0,0), (0,2,0), (0,0,3) with unit axis normals,
cell [0,1]x[0,2]x[0,3]); the normal matrix is the identity and the
least-squares point (1,2,3) is contained in the cell. -/
theorem C1_witness :
    (Qef.new
        [⟨⟨1, 0, 0⟩, ⟨1, 0, 0⟩⟩, ⟨⟨0, 2, 0⟩, ⟨0, 1, 0⟩⟩, ⟨⟨0, 0, 3⟩, ⟨0, 0, 1⟩⟩]
        ⟨⟨0, 0, 0⟩, ⟨1, 2, 3⟩⟩).lsSolution = some ⟨1, 2, 3⟩ ∧
    ((Qef.new
        [⟨⟨1, 0, 0⟩, ⟨1, 0, 0⟩⟩, ⟨⟨0, 2, 0⟩, ⟨0, 1, 0⟩⟩, ⟨⟨0, 0, 3⟩, ⟨0, 0, 1⟩⟩]
        ⟨⟨0, 0, 0⟩, ⟨1, 2, 3⟩⟩).solve).solution = some ⟨1, 2, 3⟩ := by
  obtain ⟨hsym, hinv, hni, hcy, hcn⟩ :=
    C1_solve_characterization
      (Qef.new
        [⟨⟨1, 0, 0⟩, ⟨1, 0, 0⟩⟩, ⟨⟨0, 2, 0⟩, ⟨0, 1, 0⟩⟩, ⟨⟨0, 0, 3⟩, ⟨0, 0, 1⟩⟩]
        ⟨⟨0, 0, 0⟩, ⟨1, 2, 3⟩⟩)
      (by norm_num [Qef.new, Qef.accumPlane])
  have h1 := hinv ⟨1, 0, 0, 0, 1, 0, 0, 0, 1⟩
    (by norm_num [Qef.new, Qef.accumPlane, Qef.ma, Mat3.tryInverse, Mat3.det,
      Mat3.adjInverse])
  have h1c : (Qef.new
      [⟨⟨1, 0, 0⟩, ⟨1, 0, 0⟩⟩, ⟨⟨0, 2, 0⟩, ⟨0, 1, 0⟩⟩, ⟨⟨0, 0, 3⟩, ⟨0, 0, 1⟩⟩]
      ⟨⟨0, 0, 0⟩, ⟨1, 2, 3⟩⟩).lsSolution = some ⟨1, 2, 3⟩ := by
    rw [h1]
    norm_num [Qef.new, Qef.accumPlane, Qef.mean, Qef.ma, Mat3.mulVec,
      Mat3.tryInverse, Mat3.det, Mat3.adjInverse, Vec3.mk.injEq]
  refine ⟨h1c, ?_⟩
  rw [hcy (by rw [h1c]; norm_num [BBox.containsOpt, BBox.contains,
    Qef.new, Qef.accumPlane]), h1c]

/-- C2: for every Qef whose bounding cell is well-formed (min <= max
componentwise), after Qef::solve the recorded solution is a concrete
point (not NaN) contained in the cell that was supplied, whether it came
from the unconstrained least-squares step or from the bisection
fallback. -/
theorem C2_solution_in_cell (q : Qef) (hwf : q.bbox.wf) :
    ∃ p, (q.solve).solution = some p ∧ ((q.solve).bbox).contains p := by
  have hbox : (q.solve).bbox = q.bbox := rfl
  rw [hbox]
  simp only [Qef.solve]
  by_cases hc : q.bbox.containsOpt q.lsSolution
  · rw [if_pos hc]
    cases hls : q.lsSolution with
    | none => rw [hls] at hc; exact absurd hc (fun h => h)
    | some p =>
      refine ⟨p, rfl, ?_⟩
      rw [hls] at hc
      exact hc
  · rw [if_neg hc]
    obtain ⟨k, hk7, hks, hksz⟩ :=
      searchSolutionF_solve_success q q.ma q.bbox
    refine ⟨midPoint ((q.shrinkStep q.ma)^[k] q.bbox), hks, ?_⟩
    obtain ⟨hw, hin⟩ := iterate_shrink_wf_within q q.ma hwf k
    exact BBox.contains_of_within hin (midPoint_contains hw)

/-- Witness for C2: a single degenerate plane (normal matrix singular, so
the NaN candidate is rejected and the bisection fallback runs) over the
unit cell; the solver still lands inside the cell. -/
theorem C2_witness :
    ∃ p, ((Qef.new [⟨⟨0, 0, 0⟩, ⟨1, 0, 0⟩⟩] ⟨⟨0, 0, 0⟩, ⟨1, 1, 1⟩⟩).solve).solution
          = some p ∧
      (((Qef.new [⟨⟨0, 0, 0⟩, ⟨1, 0, 0⟩⟩] ⟨⟨0, 0, 0⟩, ⟨1, 1, 1⟩⟩).solve).bbox).contains p :=
  C2_solution_in_cell _ (by norm_num [BBox.wf, Qef.new, Qef.accumPlane])

/-- C4: the QEF bisection fallback terminates: every step halves the cell
extent along each of the three axes, and with the accuracy threshold used
by Qef::solve (one hundredth of the starting x-extent) the recursion
stops within 7 steps — bounded by log2 of (cell size / accuracy) — and
returns the midpoint of the final shrunken cell. -/
theorem C4_search_terminates (q : Qef) (ma : Mat3 ℚ) (b : BBox ℚ) :
    (∀ c : BBox ℚ,
      (q.shrinkStep ma c).max.x - (q.shrinkStep ma c).min.x =
        (c.max.x - c.min.x) / 2 ∧
      (q.shrinkStep ma c).max.y - (q.shrinkStep ma c).min.y =
        (c.max.y - c.min.y) / 2 ∧
      (q.shrinkStep ma c).max.z - (q.shrinkStep ma c).min.z =
        (c.max.z - c.min.z) / 2) ∧
    ∃ k ≤ 7,
      q.searchSolutionF ma ((b.max.x - b.min.x) / 100) 7 b =
        some (midPoint ((q.shrinkStep ma)^[k] b)) ∧
      ((q.shrinkStep ma)^[k] b).max.x - ((q.shrinkStep ma)^[k] b).min.x ≤
        (b.max.x - b.min.x) / 100 :=
  ⟨fun c => ⟨shrinkStep_xsize q ma c, shrinkStep_ysize q ma c,
    shrinkStep_zsize q ma c⟩,
   searchSolutionF_solve_success q ma b⟩

lemma Vec3.add_assoc3 (a b c : Vec3 ℚ) : a + b + c = a + (b + c) := by
  cases a; cases b; cases c
  simp [add_assoc]

lemma Vec3.add_comm3 (a b : Vec3 ℚ) : a + b = b + a := by
  cases a; cases b
  simp [add_comm]

lemma BBox.union_assoc (a b c : BBox ℚ) :
    (a.union b).union c = a.union (b.union c) := by
  simp [BBox.union, min_assoc, max_assoc]

lemma BBox.union_comm (a b : BBox ℚ) : a.union b = b.union a := by
  simp [BBox.union, min_comm, max_comm]

lemma foldl_accumPlane (ps : List Plane) (init : Qef) :
    ps.foldl Qef.accumPlane init =
      { init with
        sum := ⟨init.sum.x + (ps.map fun p => p.p.x).sum,
                init.sum.y + (ps.map fun p => p.p.y).sum,
                init.sum.z + (ps.map fun p => p.p.z).sum⟩
        ata0 := init.ata0 + (ps.map fun p => p.n.x * p.n.x).sum
        ata1 := init.ata1 + (ps.map fun p => p.n.x * p.n.y).sum
        ata2 := init.ata2 + (ps.map fun p => p.n.x * p.n.z).sum
        ata3 := init.ata3 + (ps.map fun p => p.n.y * p.n.y).sum
        ata4 := init.ata4 + (ps.map fun p => p.n.y * p.n.z).sum
        ata5 := init.ata5 + (ps.map fun p => p.n.z * p.n.z).sum
        atb := ⟨init.atb.x + (ps.map fun p => p.n.x * planePn p).sum,
                init.atb.y + (ps.map fun p => p.n.y * planePn p).sum,
                init.atb.z + (ps.map fun p => p.n.z * planePn p).sum⟩
        btb := init.btb + (ps.map fun p => planePn p * planePn p).sum } := by
  induction ps generalizing init with
  | nil => simp
  | cons p ps ih =>
    rw [List.foldl_cons, ih]
    simp only [Qef.accumPlane, planePn, List.map_cons, List.sum_cons, Qef.mk.injEq,
      Vec3.mk.injEq]
    and_intros <;> first | rfl | trivial | ring1

/-- Closed form of Qef::new: every accumulator is the sum of its per-plane
contribution over the input list, and the solution and error fields start
as NaN. -/
lemma Qef.new_closed (ps : List Plane) (bbox : BBox ℚ) :
    Qef.new ps bbox =
      { solution := none
        sum := ⟨(ps.map fun p => p.p.x).sum, (ps.map fun p => p.p.y).sum,
                (ps.map fun p => p.p.z).sum⟩
        num := ps.length
        ata0 := (ps.map fun p => p.n.x * p.n.x).sum
        ata1 := (ps.map fun p => p.n.x * p.n.y).sum
        ata2 := (ps.map fun p => p.n.x * p.n.z).sum
        ata3 := (ps.map fun p => p.n.y * p.n.y).sum
        ata4 := (ps.map fun p => p.n.y * p.n.z).sum
        ata5 := (ps.map fun p => p.n.z * p.n.z).sum
        atb := ⟨(ps.map fun p => p.n.x * planePn p).sum,
                (ps.map fun p => p.n.y * planePn p).sum,
                (ps.map fun p => p.n.z * planePn p).sum⟩
        btb := (ps.map fun p => planePn p * planePn p).sum
        error := none
        bbox := bbox } := by
  rw [Qef.new, foldl_accumPlane]
  simp

/-- C3: Qef::merge is associative, commutative on freshly built solvers,
building a Qef on the concatenation of two plane lists over the union of
the two cells equals building the two halves separately and merging
(hence also after solving the results agree exactly), and Qef::new is
order-independent: permuting the input planes yields the same accumulated
state. -/
theorem C3_merge_algebra :
    (∀ a b c : Qef, (a.merge b).merge c = a.merge (b.merge c)) ∧
    (∀ (A B : List Plane) (ca cb : BBox ℚ),
      (Qef.new A ca).merge (Qef.new B cb) = (Qef.new B cb).merge (Qef.new A ca)) ∧
    (∀ (A B : List Plane) (ca cb : BBox ℚ),
      Qef.new (A ++ B) (ca.union cb) = (Qef.new A ca).merge (Qef.new B cb)) ∧
    (∀ (A B : List Plane) (ca cb : BBox ℚ),
      (Qef.new (A ++ B) (ca.union cb)).solve =
        ((Qef.new A ca).merge (Qef.new B cb)).solve) ∧
    (∀ (A B : List Plane) (bbox : BBox ℚ),
      A.Perm B → Qef.new A bbox = Qef.new B bbox) := by
  have hconcat : ∀ (A B : List Plane) (ca cb : BBox ℚ),
      Qef.new (A ++ B) (ca.union cb) = (Qef.new A ca).merge (Qef.new B cb) := by
    intro A B ca cb
    rw [Qef.new_closed, Qef.new_closed, Qef.new_closed]
    simp [Qef.merge]
  refine ⟨?_, ?_, hconcat, ?_, ?_⟩
  · intro a b c
    simp only [Qef.merge, Qef.mk.injEq]
    and_intros <;> first
      | rfl
      | trivial
      | exact Vec3.add_assoc3 _ _ _
      | omega
      | ring1
      | exact BBox.union_assoc _ _ _
  · intro A B ca cb
    rw [Qef.new_closed, Qef.new_closed]
    simp only [Qef.merge, Qef.mk.injEq]
    and_intros <;> first
      | rfl
      | trivial
      | exact Vec3.add_comm3 _ _
      | omega
      | ring1
      | exact BBox.union_comm _ _
  · intro A B ca cb
    rw [hconcat]
  · intro A B bbox hperm
    rw [Qef.new_closed, Qef.new_closed]
    simp only [Qef.mk.injEq, Vec3.mk.injEq]
    and_intros <;> first
      | rfl
      | trivial
      | exact hperm.length_eq
      | exact (hperm.map _).sum_eq

/-- Witness for C3: two concrete planes; swapping them permutes the input,
and splitting them across two solvers then merging matches the direct
build, including after solving. -/
theorem C3_witness :
    Qef.new [⟨⟨1, 0, 0⟩, ⟨1, 0, 0⟩⟩, ⟨⟨0, 2, 0⟩, ⟨0, 1, 0⟩⟩] ⟨⟨0, 0, 0⟩, ⟨1, 1, 1⟩⟩ =
      Qef.new [⟨⟨0, 2, 0⟩, ⟨0, 1, 0⟩⟩, ⟨⟨1, 0, 0⟩, ⟨1, 0, 0⟩⟩] ⟨⟨0, 0, 0⟩, ⟨1, 1, 1⟩⟩ ∧
    (Qef.new ([⟨⟨1, 0, 0⟩, ⟨1, 0, 0⟩⟩] ++ [⟨⟨0, 2, 0⟩, ⟨0, 1, 0⟩⟩])
        ((⟨⟨0, 0, 0⟩, ⟨1, 1, 1⟩⟩ : BBox ℚ).union ⟨⟨0, 0, 0⟩, ⟨2, 2, 2⟩⟩)).solve =
      ((Qef.new [⟨⟨1, 0, 0⟩, ⟨1, 0, 0⟩⟩] ⟨⟨0, 0, 0⟩, ⟨1, 1, 1⟩⟩).merge
        (Qef.new [⟨⟨0, 2, 0⟩, ⟨0, 1, 0⟩⟩] ⟨⟨0, 0, 0⟩, ⟨2, 2, 2⟩⟩)).solve :=
  ⟨C3_merge_algebra.2.2.2.2 _ _ _ (List.Perm.swap _ _ _),
   C3_merge_algebra.2.2.2.1 _ _ _ _⟩

lemma vnorm_pos_of_ne_zero {p : Vec3 ℝ} (h : p ≠ ⟨0, 0, 0⟩) : 0 < vnorm p := by
  rcases p with ⟨px, py, pz⟩
  have hsum : 0 < px ^ 2 + py ^ 2 + pz ^ 2 := by
    rcases lt_or_eq_of_le (le_of_eq rfl : (0:ℝ) ≤ 0) with h0 | _
    · exact absurd rfl (ne_of_lt h0)
    by_contra hle
    push_neg at hle
    have hx : px = 0 := by nlinarith [sq_nonneg px, sq_nonneg py, sq_nonneg pz]
    have hy : py = 0 := by nlinarith [sq_nonneg px, sq_nonneg py, sq_nonneg pz]
    have hz : pz = 0 := by nlinarith [sq_nonneg px, sq_nonneg py, sq_nonneg pz]
    exact h (by rw [hx, hy, hz])
  exact Real.sqrt_pos.mpr hsum

lemma vnorm_smul (c : ℝ) (p : Vec3 ℝ) : vnorm (c • p) = |c| * vnorm p := by
  rcases p with ⟨px, py, pz⟩
  simp only [vnorm, Vec3.smul_mk]
  rw [show (c * px) ^ 2 + (c * py) ^ 2 + (c * pz) ^ 2 =
      c ^ 2 * (px ^ 2 + py ^ 2 + pz ^ 2) by ring,
    Real.sqrt_mul (sq_nonneg c), Real.sqrt_sq_eq_abs]

/-- C5: for the origin-centered sphere of radius r, whenever the
bounding-box estimate is within the slack (in particular at unbounded
slack, since the estimate is finite) approx_value returns exactly
norm(p) - r with no truncation, and for p different from the origin the
normal is the unit vector p normalized by its norm. -/
theorem C5_sphere_value_normal (r : ℝ) (p : Vec3 ℝ) (slack : ℝ) :
    ((Sphere.new r).bbox.value p ≤ slack →
      (Sphere.new r).approxValue p slack = vnorm p - r) ∧
    (p ≠ ⟨0, 0, 0⟩ →
      (Sphere.new r).normal p = (vnorm p)⁻¹ • p ∧
      vnorm ((Sphere.new r).normal p) = 1) := by
  constructor
  · intro h
    simp only [Sphere.approxValue]
    rw [if_pos h]
    rfl
  · intro hp
    have hpos := vnorm_pos_of_ne_zero hp
    refine ⟨rfl, ?_⟩
    show vnorm (vnormalize p) = 1
    rw [vnormalize, vnorm_smul, abs_of_pos (inv_pos.mpr hpos),
      inv_mul_cancel₀ (ne_of_gt hpos)]

/-- Witness for C5: the point (3,4,0) against the unit sphere at slack
100: the box estimate 3 is within slack, the exact value is 5 - 1 = 4,
and the normal is (3/5, 4/5, 0). -/
theorem C5_witness :
    (Sphere.new 1).approxValue ⟨3, 4, 0⟩ 100 = 4 ∧
      (Sphere.new 1).normal ⟨3, 4, 0⟩ = ⟨3 / 5, 4 / 5, 0⟩ := by
  have h5 : vnorm ⟨3, 4, 0⟩ = 5 := by
    rw [vnorm]
    norm_num
    rw [show (25 : ℝ) = 5 ^ 2 by norm_num, Real.sqrt_sq (by norm_num)]
  obtain ⟨h1, h2⟩ := C5_sphere_value_normal 1 ⟨3, 4, 0⟩ 100
  have hb : (Sphere.new 1).bbox.value ⟨3, 4, 0⟩ ≤ 100 := by
    simp only [Sphere.new, BBox.value]
    norm_num
  have hne : (⟨3, 4, 0⟩ : Vec3 ℝ) ≠ ⟨0, 0, 0⟩ := by
    intro hc
    have := congrArg Vec3.x hc
    norm_num at this
  obtain ⟨hn1, hn2⟩ := h2 hne
  refine ⟨?_, ?_⟩
  · rw [h1 hb, h5]; norm_num
  · rw [hn1, h5]
    simp only [Vec3.smul_mk, Vec3.mk.injEq]
    norm_num

/-- C6 (amended): Renderer::draw_on_buf with no object set leaves the
supplied buffer untouched (it writes nothing), for every buffer, width
and height; so the output is all zero bytes only when the input already
was. -/
theorem C6_none_object_buffer_unchanged (r : Renderer) (h : r.object = none)
    (fuel : ℕ) (buf : List ℕ) (width height : ℤ) :
    r.drawOnBuf fuel buf width height = some buf := by
  simp only [Renderer.drawOnBuf, h]

/-- Witness for C6 (amended): a fresh renderer (object None) returns the
one-pixel buffer [5] unchanged. -/
theorem C6_witness :
    Renderer.new.drawOnBuf 0 [5] 1 1 = some [5] :=
  C6_none_object_buffer_unchanged Renderer.new rfl 0 [5] 1 1

/-- Counterexample to C6 as stated: with no object, draw_on_buf on the
nonzero 1x1 buffer [1,2,3,4] of length width*height*4 returns it
unchanged, so the produced buffer is not all zero bytes. -/
theorem C6_counterexample :
    Renderer.new.drawOnBuf 1 [1, 2, 3, 4] 1 1 = some [1, 2, 3, 4] ∧
      [1, 2, 3, 4] ≠ List.replicate 4 (0 : ℕ) := by
  refine ⟨?_, by decide⟩
  have h : Renderer.new.object = none := rfl
  simp only [Renderer.drawOnBuf, h]

/-- C7: each iteration of cast_ray steps the origin forward by the last
evaluated distance along the normalized direction (first conjunct), and
whenever the march returns, it returns either shade 0 with the evaluated
distance above the max-distance bound (miss) or, with the evaluated
distance below epsilon (hit), the shade dot(normal, light) clamped to
zero for back-facing surfaces (second conjunct). -/
theorem C7_cast_ray_characterization (rend : Renderer) (obj : Obj)
    (light : Vec3 ℝ) :
    (∀ (fuel : ℕ) (origin dir : Vec3 ℝ) (value : ℝ) (iter : ℕ),
      ¬ rend.maxval <
          obj.approxValue (origin + value • vnormalize dir) rend.approxSlack →
      ¬ obj.approxValue (origin + value • vnormalize dir) rend.approxSlack <
          rend.epsilon →
      castRayLoop rend obj light (fuel + 1) origin dir value iter =
        castRayLoop rend obj light fuel (origin + value • vnormalize dir)
          (vnormalize dir)
          (obj.approxValue (origin + value • vnormalize dir) rend.approxSlack)
          (iter + 1)) ∧
    (∀ (fuel : ℕ) (origin dir : Vec3 ℝ) (value : ℝ) (iter it : ℕ) (s : ℝ),
      castRayLoop rend obj light fuel origin dir value iter = some (it, s) →
      ∃ o,
        (rend.maxval < obj.approxValue o rend.approxSlack ∧ s = 0) ∨
        (¬ rend.maxval < obj.approxValue o rend.approxSlack ∧
          obj.approxValue o rend.approxSlack < rend.epsilon ∧
          s = Max.max 0 ((obj.normal o).dot light))) := by
  constructor
  · intro fuel origin dir value iter h1 h2
    simp only [castRayLoop]
    rw [if_neg h1, if_neg h2]
  · intro fuel
    induction fuel with
    | zero =>
      intro origin dir value iter it s h
      simp only [castRayLoop] at h
      by_cases h1 : rend.maxval <
          obj.approxValue (origin + value • vnormalize dir) rend.approxSlack
      · rw [if_pos h1] at h
        injection h with h4
        injection h4 with h5 h6
        exact ⟨origin + value • vnormalize dir, Or.inl ⟨h1, h6.symm⟩⟩
      · rw [if_neg h1] at h
        by_cases h2 : obj.approxValue (origin + value • vnormalize dir)
            rend.approxSlack < rend.epsilon
        · rw [if_pos h2] at h
          refine ⟨origin + value • vnormalize dir, Or.inr ⟨h1, h2, ?_⟩⟩
          by_cases h3 : ((obj.normal (origin + value • vnormalize dir)).dot light) < 0
          · rw [if_pos h3] at h
            injection h with h4
            injection h4 with h5 h6
            rw [← h6]
            exact (max_eq_left (le_of_lt h3)).symm
          · rw [if_neg h3] at h
            injection h with h4
            injection h4 with h5 h6
            rw [← h6]
            exact (max_eq_right (not_lt.mp h3)).symm
        · rw [if_neg h2] at h
          exact absurd h (by simp)
    | succ n ih =>
      intro origin dir value iter it s h
      simp only [castRayLoop] at h
      by_cases h1 : rend.maxval <
          obj.approxValue (origin + value • vnormalize dir) rend.approxSlack
      · rw [if_pos h1] at h
        injection h with h4
        injection h4 with h5 h6
        exact ⟨origin + value • vnormalize dir, Or.inl ⟨h1, h6.symm⟩⟩
      · rw [if_neg h1] at h
        by_cases h2 : obj.approxValue (origin + value • vnormalize dir)
            rend.approxSlack < rend.epsilon
        · rw [if_pos h2] at h
          refine ⟨origin + value • vnormalize dir, Or.inr ⟨h1, h2, ?_⟩⟩
          by_cases h3 : ((obj.normal (origin + value • vnormalize dir)).dot light) < 0
          · rw [if_pos h3] at h
            injection h with h4
            injection h4 with h5 h6
            rw [← h6]
            exact (max_eq_left (le_of_lt h3)).symm
          · rw [if_neg h3] at h
            injection h with h4
            injection h4 with h5 h6
            rw [← h6]
            exact (max_eq_right (not_lt.mp h3)).symm
        · rw [if_neg h2] at h
          exact ih _ _ _ _ _ _ h

/-- Witness for C7: an object at constant distance 5 against a fresh
renderer (max distance 0): the very first evaluation exceeds the bound
and the march exits with shade 0 after one iteration; the theorem then
exhibits the miss exit. -/
theorem C7_witness :
    ∃ o,
      (Renderer.new.maxval <
          (Obj.mk (fun _ _ => 5) (fun _ => ⟨0, 0, 1⟩) ⟨⟨0, 0, 0⟩, ⟨0, 0, 0⟩⟩).approxValue
            o Renderer.new.approxSlack ∧ (0 : ℝ) = 0) ∨
      (¬ Renderer.new.maxval <
          (Obj.mk (fun _ _ => 5) (fun _ => ⟨0, 0, 1⟩) ⟨⟨0, 0, 0⟩, ⟨0, 0, 0⟩⟩).approxValue
            o Renderer.new.approxSlack ∧
        (Obj.mk (fun _ _ => 5) (fun _ => ⟨0, 0, 1⟩) ⟨⟨0, 0, 0⟩, ⟨0, 0, 0⟩⟩).approxValue
            o Renderer.new.approxSlack < Renderer.new.epsilon ∧
        (0 : ℝ) = Max.max 0
          (((Obj.mk (fun _ _ => 5) (fun _ => ⟨0, 0, 1⟩) ⟨⟨0, 0, 0⟩, ⟨0, 0, 0⟩⟩).normal
            o).dot ⟨0, 0, 1⟩)) := by
  have h : castRayLoop Renderer.new
      (Obj.mk (fun _ _ => 5) (fun _ => ⟨0, 0, 1⟩) ⟨⟨0, 0, 0⟩, ⟨0, 0, 0⟩⟩) ⟨0, 0, 1⟩
      1 ⟨0, 0, 0⟩ ⟨1, 0, 0⟩ 0 0 = some (1, 0) := by
    simp only [castRayLoop]
    rw [if_pos (by norm_num [Renderer.new])]
  exact (C7_cast_ray_characterization Renderer.new _ _).2 1 _ _ _ _ _ _ h

/-- C10: equality on boxed Objects is never reflexive: every comparison,
including an object against itself, reports not-equal, and partial_cmp
always reports no ordering. -/
theorem C10_box_object_never_equal :
    ∀ a b : Obj, boxObjectEq a b = false ∧ boxObjectPartialCmp a b = none ∧
      boxObjectEq a a = false ∧ boxObjectPartialCmp a a = none :=
  fun _ _ => ⟨rfl, rfl, rfl, rfl⟩

lemma affD_det (w t : Vec3 ℝ) : (affD w t).det = w.x * w.y * w.z := by
  rw [Matrix.det_of_upperTriangular]
  · simp [affD, Fin.prod_univ_four, Matrix.vecHead, Matrix.vecTail]
  · intro i j h
    fin_cases i <;> fin_cases j <;>
      simp_all [affD, Matrix.vecHead, Matrix.vecTail]

lemma affD_mul (w t w2 t2 : Vec3 ℝ) :
    affD w t * affD w2 t2 =
      affD ⟨w.x * w2.x, w.y * w2.y, w.z * w2.z⟩
        ⟨w.x * t2.x + t.x, w.y * t2.y + t.y, w.z * t2.z + t.z⟩ := by
  ext i j
  fin_cases i <;> fin_cases j <;>
    simp [affD, Matrix.mul_apply, Fin.sum_univ_four, Matrix.vecHead,
      Matrix.vecTail] <;> ring

lemma affD_one : affD ⟨1, 1, 1⟩ ⟨0, 0, 0⟩ = (1 : Mat4) := by
  ext i j
  fin_cases i <;> fin_cases j <;>
    simp [affD, Matrix.one_apply, Matrix.vecHead, Matrix.vecTail]

lemma affD_inv {w : Vec3 ℝ} (t : Vec3 ℝ)
    (hx : w.x ≠ 0) (hy : w.y ≠ 0) (hz : w.z ≠ 0) :
    (affD w t)⁻¹ =
      affD ⟨w.x⁻¹, w.y⁻¹, w.z⁻¹⟩ ⟨-(w.x⁻¹ * t.x), -(w.y⁻¹ * t.y), -(w.z⁻¹ * t.z)⟩ := by
  apply Matrix.inv_eq_right_inv
  rw [affD_mul]
  rw [show (⟨w.x * w.x⁻¹, w.y * w.y⁻¹, w.z * w.z⁻¹⟩ : Vec3 ℝ) = ⟨1, 1, 1⟩ by
    rw [mul_inv_cancel₀ hx, mul_inv_cancel₀ hy, mul_inv_cancel₀ hz]]
  rw [show (⟨w.x * -(w.x⁻¹ * t.x) + t.x, w.y * -(w.y⁻¹ * t.y) + t.y,
      w.z * -(w.z⁻¹ * t.z) + t.z⟩ : Vec3 ℝ) = ⟨0, 0, 0⟩ by
    rw [Vec3.mk.injEq]
    refine ⟨?_, ?_, ?_⟩ <;> (field_simp; try ring)]
  exact affD_one

lemma affD_transformPoint (w t p : Vec3 ℝ) :
    transformPoint (affD w t) p =
      ⟨w.x * p.x + t.x, w.y * p.y + t.y, w.z * p.z + t.z⟩ := by
  simp [transformPoint, affD, Matrix.vecHead, Matrix.vecTail]

lemma affD_bbox_transform (w t : Vec3 ℝ) (b : BBox ℝ) :
    BBox.transform (affD w t) b =
      ⟨⟨Min.min (w.x * b.min.x + t.x) (w.x * b.max.x + t.x),
        Min.min (w.y * b.min.y + t.y) (w.y * b.max.y + t.y),
        Min.min (w.z * b.min.z + t.z) (w.z * b.max.z + t.z)⟩,
       ⟨Max.max (w.x * b.min.x + t.x) (w.x * b.max.x + t.x),
        Max.max (w.y * b.min.y + t.y) (w.y * b.max.y + t.y),
        Max.max (w.z * b.min.z + t.z) (w.z * b.max.z + t.z)⟩⟩ := by
  simp only [BBox.transform, affD_transformPoint]
  simp [min_self, max_self, min_assoc, max_assoc, min_left_comm, max_left_comm,
    min_comm, max_comm, BBox.mk.injEq, Vec3.mk.injEq]

/-- C9: constructing an AffineTransformer with a singular (determinant
zero) matrix aborts (the panic is modelled as none), so a transformer
with a non-invertible transform is never produced; with an invertible
matrix, construction succeeds and caches the child bounding box
transformed by the matrix inverse. -/
theorem C9_singular_transform_fatal (o : Obj) (t : Mat4) (s : ℝ) :
    (t.det = 0 → AffineTransformer.newWithScaler o t s = none) ∧
    (t.det ≠ 0 →
      AffineTransformer.newWithScaler o t s =
        some ⟨o, t, s, BBox.transform t⁻¹ o.bbox⟩) ∧
    (∀ a, AffineTransformer.newWithScaler o t s = some a →
      a.transform.det ≠ 0 ∧ a.object = o ∧
      a.bbox = BBox.transform t⁻¹ o.bbox) := by
  refine ⟨?_, ?_, ?_⟩
  · intro h
    simp only [AffineTransformer.newWithScaler, if_pos h]
  · intro h
    simp only [AffineTransformer.newWithScaler, if_neg h]
  · intro a ha
    simp only [AffineTransformer.newWithScaler] at ha
    by_cases h : t.det = 0
    · rw [if_pos h] at ha
      exact absurd ha (by simp)
    · rw [if_neg h] at ha
      have := Option.some.inj ha
      rw [← this]
      exact ⟨h, rfl, rfl⟩

/-- Witness for C9: the zero matrix is singular, so construction fails;
the identity matrix is invertible, so construction succeeds and caches
the (degenerate) child box transformed by the identity inverse, i.e.
itself. -/
theorem C9_witness :
    AffineTransformer.newWithScaler
        ⟨fun p _ => p.x, fun _ => ⟨1, 0, 0⟩, ⟨⟨0, 0, 0⟩, ⟨0, 0, 0⟩⟩⟩
        (0 : Mat4) 1 = none ∧
    AffineTransformer.newWithScaler
        ⟨fun p _ => p.x, fun _ => ⟨1, 0, 0⟩, ⟨⟨0, 0, 0⟩, ⟨0, 0, 0⟩⟩⟩
        (1 : Mat4) 1 =
      some ⟨⟨fun p _ => p.x, fun _ => ⟨1, 0, 0⟩, ⟨⟨0, 0, 0⟩, ⟨0, 0, 0⟩⟩⟩,
        (1 : Mat4), 1, ⟨⟨0, 0, 0⟩, ⟨0, 0, 0⟩⟩⟩ := by
  constructor
  · exact (C9_singular_transform_fatal _ _ _).1 (by simp)
  · rw [(C9_singular_transform_fatal _ _ _).2.1 (by simp)]
    have hbox : BBox.transform ((1 : Mat4))⁻¹
        (⟨⟨0, 0, 0⟩, ⟨0, 0, 0⟩⟩ : BBox ℝ) = ⟨⟨0, 0, 0⟩, ⟨0, 0, 0⟩⟩ := by
      rw [inv_one, ← affD_one, affD_bbox_transform]
      norm_num
    rw [hbox]

lemma translationM_det (w : Vec3 ℝ) : (translationM w).det = 1 := by
  rw [translationM, affD_det]
  norm_num

lemma translationM_mul (a b : Vec3 ℝ) :
    translationM a * translationM b = translationM (a + b) := by
  rcases a with ⟨a1, a2, a3⟩
  rcases b with ⟨b1, b2, b3⟩
  simp only [translationM, Vec3.mk_add_mk, affD_mul]
  congr 1 <;> simp [Vec3.mk.injEq, add_comm]

lemma translationM_inv (w : Vec3 ℝ) : (translationM w)⁻¹ = translationM (-w) := by
  rcases w with ⟨w1, w2, w3⟩
  rw [translationM, affD_inv _ one_ne_zero one_ne_zero one_ne_zero]
  simp only [translationM, Vec3.neg_mk]
  congr 1 <;> simp [Vec3.mk.injEq]

lemma translationM_transformPoint (w p : Vec3 ℝ) :
    transformPoint (translationM w) p = p + w := by
  rcases w with ⟨w1, w2, w3⟩
  rcases p with ⟨p1, p2, p3⟩
  simp [translationM, affD_transformPoint, Vec3.mk_add_mk]

lemma translationM_bbox (w : Vec3 ℝ) (b : BBox ℝ) :
    BBox.transform (translationM w) b =
      ⟨⟨Min.min b.min.x b.max.x + w.x, Min.min b.min.y b.max.y + w.y,
        Min.min b.min.z b.max.z + w.z⟩,
       ⟨Max.max b.min.x b.max.x + w.x, Max.max b.min.y b.max.y + w.y,
        Max.max b.min.z b.max.z + w.z⟩⟩ := by
  rw [translationM, affD_bbox_transform]
  simp [min_add_add_right, max_add_add_right]

/-- C8 (amended): for EVERY existing AffineTransformer, translate, rotate
and scale fold the new transform into the existing matrix and return a
transformer wrapping the same (cloned) child object with the same cached
scale bookkeeping and no second wrapper (first three conjuncts).  The
folded object evaluates identically to stacking a second wrapper
(applying the two transforms in sequence) when the existing transform is
a pure translation (last conjunct); in general, folding and stacking
evaluate differently (see the counterexample). -/
theorem C8_transform_folding :
    (∀ (a : AffineTransformer) (w : Vec3 ℝ) (f : AffineTransformer),
      a.translate w = some f →
      f.object = a.object ∧ f.transform = translationM (-w) * a.transform ∧
      f.scaleMin = a.scaleMin) ∧
    (∀ (a : AffineTransformer) (r : Vec3 ℝ) (f : AffineTransformer),
      a.rotate r = some f →
      f.object = a.object ∧ f.transform = a.transform * eulerM r ∧
      f.scaleMin = a.scaleMin) ∧
    (∀ (a : AffineTransformer) (s : Vec3 ℝ) (f : AffineTransformer),
      a.scale s = some f →
      f.object = a.object ∧
      f.transform = scalingM ⟨1 / s.x, 1 / s.y, 1 / s.z⟩ * a.transform ∧
      f.scaleMin = a.scaleMin * Min.min s.x (Min.min s.y s.z)) ∧
    (∀ (c : Obj) (u v : Vec3 ℝ) (a : AffineTransformer),
      AffineTransformer.newWithScaler c (translationM u) 1 = some a →
      ∃ f st, a.translate v = some f ∧
        AffineTransformer.newTranslate a.toObj v = some st ∧
        ∀ p slack, f.toObj.approxValue p slack = st.toObj.approxValue p slack) := by
  refine ⟨?_, ?_, ?_, ?_⟩
  · intro a w f hf
    simp only [AffineTransformer.translate, AffineTransformer.newWithScaler] at hf
    split at hf
    · exact absurd hf (by simp)
    · rw [← Option.some.inj hf]
      exact ⟨rfl, rfl, rfl⟩
  · intro a r f hf
    simp only [AffineTransformer.rotate, AffineTransformer.newWithScaler] at hf
    split at hf
    · exact absurd hf (by simp)
    · rw [← Option.some.inj hf]
      exact ⟨rfl, rfl, rfl⟩
  · intro a s f hf
    simp only [AffineTransformer.scale, AffineTransformer.newWithScaler] at hf
    split at hf
    · exact absurd hf (by simp)
    · rw [← Option.some.inj hf]
      exact ⟨rfl, rfl, rfl⟩
  intro c u v a ha
  rcases u with ⟨u1, u2, u3⟩
  rcases v with ⟨v1, v2, v3⟩
  have hdetu : (translationM ⟨u1, u2, u3⟩).det ≠ 0 := by
    rw [translationM_det]; norm_num
  have ha2 : a = ⟨c, translationM ⟨u1, u2, u3⟩, 1,
      BBox.transform (translationM ⟨u1, u2, u3⟩)⁻¹ c.bbox⟩ := by
    simp only [AffineTransformer.newWithScaler, if_neg hdetu] at ha
    exact (Option.some.inj ha).symm
  subst ha2
  -- the folded transformer
  have hdetf : (translationM ⟨-v1, -v2, -v3⟩ * translationM ⟨u1, u2, u3⟩).det ≠ 0 := by
    rw [translationM_mul, translationM_det]; norm_num
  have hfold : AffineTransformer.translate
      ⟨c, translationM ⟨u1, u2, u3⟩, 1,
        BBox.transform (translationM ⟨u1, u2, u3⟩)⁻¹ c.bbox⟩ ⟨v1, v2, v3⟩ =
      some ⟨c, translationM ⟨-v1, -v2, -v3⟩ * translationM ⟨u1, u2, u3⟩, 1,
        BBox.transform
          (translationM ⟨-v1, -v2, -v3⟩ * translationM ⟨u1, u2, u3⟩)⁻¹ c.bbox⟩ := by
    simp only [AffineTransformer.translate, AffineTransformer.newWithScaler,
      Vec3.neg_mk]
    rw [if_neg hdetf]
  -- the stacked transformer
  have hdet1 : (1 : Mat4).det ≠ 0 := by simp
  have hdetv : (translationM ⟨-v1, -v2, -v3⟩ * 1).det ≠ 0 := by
    rw [mul_one, translationM_det]; norm_num
  have hstack : AffineTransformer.newTranslate
      (AffineTransformer.toObj
        ⟨c, translationM ⟨u1, u2, u3⟩, 1,
          BBox.transform (translationM ⟨u1, u2, u3⟩)⁻¹ c.bbox⟩) ⟨v1, v2, v3⟩ =
      some ⟨AffineTransformer.toObj
          ⟨c, translationM ⟨u1, u2, u3⟩, 1,
            BBox.transform (translationM ⟨u1, u2, u3⟩)⁻¹ c.bbox⟩,
        translationM ⟨-v1, -v2, -v3⟩ * 1, 1,
        BBox.transform (translationM ⟨-v1, -v2, -v3⟩ * 1)⁻¹
          (BBox.transform (translationM ⟨u1, u2, u3⟩)⁻¹ c.bbox)⟩ := by
    simp only [AffineTransformer.newTranslate, AffineTransformer.newWithScaler,
      if_neg hdet1, Option.some_bind, AffineTransformer.translate, Vec3.neg_mk]
    rw [if_neg hdetv]
    rfl
  refine ⟨_, _, hfold, hstack, ?_⟩
  intro p slack
  rcases p with ⟨p1, p2, p3⟩
  have hM1 : translationM ⟨-v1, -v2, -v3⟩ * translationM ⟨u1, u2, u3⟩ =
      translationM ⟨-v1 + u1, -v2 + u2, -v3 + u3⟩ := by
    rw [translationM_mul]
    rfl
  have hM1inv : (translationM ⟨-v1, -v2, -v3⟩ * translationM ⟨u1, u2, u3⟩)⁻¹ =
      translationM ⟨v1 - u1, v2 - u2, v3 - u3⟩ := by
    rw [hM1, translationM_inv]
    simp only [Vec3.neg_mk]
    exact congrArg translationM
      (by rw [Vec3.mk.injEq]; refine ⟨by ring, by ring, by ring⟩)
  have huinv : (translationM ⟨u1, u2, u3⟩)⁻¹ = translationM ⟨-u1, -u2, -u3⟩ := by
    rw [translationM_inv]
    rfl
  have hbox : BBox.transform (translationM ⟨-v1, -v2, -v3⟩)⁻¹
      (BBox.transform (translationM ⟨u1, u2, u3⟩)⁻¹ c.bbox) =
      BBox.transform
        (translationM ⟨-v1, -v2, -v3⟩ * translationM ⟨u1, u2, u3⟩)⁻¹ c.bbox := by
    rw [hM1inv, translationM_inv, huinv]
    simp only [Vec3.neg_mk, translationM_bbox]
    simp only [min_add_add_right, max_add_add_right,
      min_eq_left min_le_max, max_eq_right min_le_max]
    rw [BBox.mk.injEq, Vec3.mk.injEq, Vec3.mk.injEq]
    refine ⟨⟨by ring, by ring, by ring⟩, by ring, by ring, by ring⟩
  have hgate : (BBox.transform (translationM ⟨u1, u2, u3⟩)⁻¹ c.bbox).value
      (transformPoint (translationM ⟨-v1, -v2, -v3⟩) ⟨p1, p2, p3⟩) =
      (BBox.transform
        (translationM ⟨-v1, -v2, -v3⟩ * translationM ⟨u1, u2, u3⟩)⁻¹ c.bbox).value
        ⟨p1, p2, p3⟩ := by
    rw [hM1inv, huinv]
    simp only [translationM_transformPoint, translationM_bbox, Vec3.mk_add_mk,
      BBox.value]
    ring_nf
  have hpt : transformPoint (translationM ⟨u1, u2, u3⟩)
      (transformPoint (translationM ⟨-v1, -v2, -v3⟩) ⟨p1, p2, p3⟩) =
      transformPoint
        (translationM ⟨-v1, -v2, -v3⟩ * translationM ⟨u1, u2, u3⟩) ⟨p1, p2, p3⟩ := by
    rw [hM1]
    simp only [translationM_transformPoint, Vec3.mk_add_mk]
    rw [Vec3.mk.injEq]
    refine ⟨by ring, by ring, by ring⟩
  simp only [AffineTransformer.toObj, div_one, mul_one]
  rw [hbox, hgate, hpt]
  by_cases hc : (BBox.transform
      (translationM ⟨-v1, -v2, -v3⟩ * translationM ⟨u1, u2, u3⟩)⁻¹ c.bbox).value
      ⟨p1, p2, p3⟩ ≤ slack
  · rw [if_pos hc, if_pos hc]
  · rw [if_neg hc, if_neg hc]

/-- Witness for C8: a transformer holding a pure translation by (1,0,0)
over a degenerate test object; translating it again by (2,0,0) folds into
the matrix (same child, composed matrix, same scale factor, via the
universal folding conjuncts) and evaluates as the stacked wrapper would
(via the pure-translation equivalence conjunct). -/
theorem C8_witness :
    ∃ f st,
      AffineTransformer.translate
          ⟨⟨fun p _ => p.x, fun _ => ⟨1, 0, 0⟩, ⟨⟨0, 0, 0⟩, ⟨0, 0, 0⟩⟩⟩,
            translationM ⟨1, 0, 0⟩, 1,
            BBox.transform (translationM ⟨1, 0, 0⟩)⁻¹
              (⟨⟨0, 0, 0⟩, ⟨0, 0, 0⟩⟩ : BBox ℝ)⟩ ⟨2, 0, 0⟩ = some f ∧
      AffineTransformer.newTranslate
          (AffineTransformer.toObj
            ⟨⟨fun p _ => p.x, fun _ => ⟨1, 0, 0⟩, ⟨⟨0, 0, 0⟩, ⟨0, 0, 0⟩⟩⟩,
              translationM ⟨1, 0, 0⟩, 1,
              BBox.transform (translationM ⟨1, 0, 0⟩)⁻¹
                (⟨⟨0, 0, 0⟩, ⟨0, 0, 0⟩⟩ : BBox ℝ)⟩) ⟨2, 0, 0⟩ = some st ∧
      (∀ p slack, f.toObj.approxValue p slack = st.toObj.approxValue p slack) ∧
      f.object = ⟨fun p _ => p.x, fun _ => ⟨1, 0, 0⟩, ⟨⟨0, 0, 0⟩, ⟨0, 0, 0⟩⟩⟩ ∧
      f.transform =
        translationM (-(⟨2, 0, 0⟩ : Vec3 ℝ)) * translationM ⟨1, 0, 0⟩ ∧
      f.scaleMin = 1 := by
  obtain ⟨f, st, hf, hst, heq⟩ := C8_transform_folding.2.2.2
    ⟨fun p _ => p.x, fun _ => ⟨1, 0, 0⟩, ⟨⟨0, 0, 0⟩, ⟨0, 0, 0⟩⟩⟩ ⟨1, 0, 0⟩ ⟨2, 0, 0⟩
    ⟨⟨fun p _ => p.x, fun _ => ⟨1, 0, 0⟩, ⟨⟨0, 0, 0⟩, ⟨0, 0, 0⟩⟩⟩,
      translationM ⟨1, 0, 0⟩, 1,
      BBox.transform (translationM ⟨1, 0, 0⟩)⁻¹ (⟨⟨0, 0, 0⟩, ⟨0, 0, 0⟩⟩ : BBox ℝ)⟩
    (by
      simp only [AffineTransformer.newWithScaler]
      rw [if_neg (by rw [translationM_det]; norm_num)])
  obtain ⟨h1, h2, h3⟩ := C8_transform_folding.1 _ ⟨2, 0, 0⟩ f hf
  exact ⟨f, st, hf, hst, heq, h1, h2, h3⟩

/-- Counterexample to C8 as stated: for a transformer whose existing
matrix is a scaling (child halved in every axis, scale_min 2, degenerate
cached box at the origin), folding translate((1,0,0)) and stacking a
second wrapper do NOT evaluate identically: at the origin with slack 5
the folded object returns -2 while the stacked wrapper returns -1,
because append_translation composes on the wrong side of the scaling. -/
theorem C8_counterexample :
    (AffineTransformer.translate
        ⟨⟨fun p _ => p.x, fun _ => ⟨1, 0, 0⟩, ⟨⟨0, 0, 0⟩, ⟨0, 0, 0⟩⟩⟩,
          scalingM ⟨1 / 2, 1 / 2, 1 / 2⟩, 2, ⟨⟨0, 0, 0⟩, ⟨0, 0, 0⟩⟩⟩
        ⟨1, 0, 0⟩).map (fun f => f.toObj.approxValue ⟨0, 0, 0⟩ 5) = some (-2) ∧
    (AffineTransformer.newTranslate
        (AffineTransformer.toObj
          ⟨⟨fun p _ => p.x, fun _ => ⟨1, 0, 0⟩, ⟨⟨0, 0, 0⟩, ⟨0, 0, 0⟩⟩⟩,
            scalingM ⟨1 / 2, 1 / 2, 1 / 2⟩, 2, ⟨⟨0, 0, 0⟩, ⟨0, 0, 0⟩⟩⟩)
        ⟨1, 0, 0⟩).map (fun st => st.toObj.approxValue ⟨0, 0, 0⟩ 5) = some (-1) ∧
    (-2 : ℝ) ≠ -1 := by
  have hMf : translationM (-(⟨1, 0, 0⟩ : Vec3 ℝ)) * scalingM ⟨1 / 2, 1 / 2, 1 / 2⟩ =
      affD ⟨1 / 2, 1 / 2, 1 / 2⟩ ⟨-1, 0, 0⟩ := by
    simp only [Vec3.neg_mk, translationM, scalingM, affD_mul]
    exact congrArg₂ affD (by rw [Vec3.mk.injEq]; norm_num)
      (by rw [Vec3.mk.injEq]; norm_num)
  have hdetf : (translationM (-(⟨1, 0, 0⟩ : Vec3 ℝ)) *
      scalingM ⟨1 / 2, 1 / 2, 1 / 2⟩).det ≠ 0 := by
    rw [hMf, affD_det]
    norm_num
  have hMfinv : (translationM (-(⟨1, 0, 0⟩ : Vec3 ℝ)) *
      scalingM ⟨1 / 2, 1 / 2, 1 / 2⟩)⁻¹ = affD ⟨2, 2, 2⟩ ⟨2, 0, 0⟩ := by
    rw [hMf, affD_inv _ (by norm_num) (by norm_num) (by norm_num)]
    exact congrArg₂ affD (by rw [Vec3.mk.injEq]; norm_num)
      (by rw [Vec3.mk.injEq]; norm_num)
  have hfbox : BBox.transform
      (translationM (-(⟨1, 0, 0⟩ : Vec3 ℝ)) * scalingM ⟨1 / 2, 1 / 2, 1 / 2⟩)⁻¹
      (⟨⟨0, 0, 0⟩, ⟨0, 0, 0⟩⟩ : BBox ℝ) = ⟨⟨2, 0, 0⟩, ⟨2, 0, 0⟩⟩ := by
    rw [hMfinv, affD_bbox_transform]
    norm_num
  have hfpt : transformPoint
      (translationM (-(⟨1, 0, 0⟩ : Vec3 ℝ)) * scalingM ⟨1 / 2, 1 / 2, 1 / 2⟩)
      ⟨0, 0, 0⟩ = ⟨-1, 0, 0⟩ := by
    rw [hMf, affD_transformPoint]
    rw [Vec3.mk.injEq]
    norm_num
  refine ⟨?_, ?_, by norm_num⟩
  · simp only [AffineTransformer.translate, AffineTransformer.newWithScaler]
    rw [if_neg hdetf]
    simp only [Option.map_some']
    simp only [AffineTransformer.toObj, hfbox, hfpt]
    rw [if_pos (by norm_num [BBox.value, max_def])]
    norm_num
  · have hdet1 : (1 : Mat4).det ≠ 0 := by simp
    have hdetv : (translationM (-(⟨1, 0, 0⟩ : Vec3 ℝ)) * 1).det ≠ 0 := by
      rw [mul_one, translationM_det]
      norm_num
    simp only [AffineTransformer.newTranslate, AffineTransformer.newWithScaler,
      if_neg hdet1, Option.some_bind, AffineTransformer.translate]
    rw [if_neg hdetv]
    simp only [Option.map_some']
    have hstbox : BBox.transform (translationM (-(⟨1, 0, 0⟩ : Vec3 ℝ)) * 1)⁻¹
        (⟨⟨0, 0, 0⟩, ⟨0, 0, 0⟩⟩ : BBox ℝ) = ⟨⟨1, 0, 0⟩, ⟨1, 0, 0⟩⟩ := by
      rw [mul_one, translationM_inv, translationM_bbox]
      rw [BBox.mk.injEq, Vec3.mk.injEq, Vec3.mk.injEq]
      norm_num
    have hstpt : transformPoint (translationM (-(⟨1, 0, 0⟩ : Vec3 ℝ)) * 1)
        ⟨0, 0, 0⟩ = ⟨-1, 0, 0⟩ := by
      rw [mul_one, translationM_transformPoint]
      rw [Vec3.mk.injEq]
      norm_num
    have hspt : transformPoint (scalingM ⟨1 / 2, 1 / 2, 1 / 2⟩) ⟨-1, 0, 0⟩ =
        ⟨-(1 / 2), 0, 0⟩ := by
      rw [scalingM, affD_transformPoint]
      rw [Vec3.mk.injEq]
      norm_num
    simp only [AffineTransformer.toObj, hstbox, hstpt]
    rw [if_pos (by norm_num [BBox.value, max_def])]
    rw [if_pos (by norm_num [BBox.value, max_def])]
    rw [hspt]
    norm_num

end Truescad
